import Mathlib

/-!
Verification of the travel_agent ingestion pipeline and vector store layer.

The definitions below are a shallow embedding of the repository's Python
sources:

* `travel_assistant/services/ingestion_service.py` — `IngestionService`
  (`make_chunk_id`, `chunk_pages`, `write_chunks_to_jsonl`, `list_pdfs`,
  `ingest_directory_to_jsonl`),
* `travel_assistant/core/config.py` — `Settings` (pydantic field bounds,
  `validate_chunking`, `load`),
* `travel_assistant/services/vector_store.py` — `VectorStoreService`
  (`_chunk_id` store key, `upsert_chunks`).

Machine integers are modelled as `Nat`/`Int` with explicit `% 2^32`
reductions where the Python libraries compute on 32-bit words
(`hashlib.sha256`, `hashlib.md5`).  Fallible Python code (raised
exceptions) is modelled with `Except`.  File-system effects are modelled
by explicit state: a directory is its (optional) listing, a written JSONL
file is the list of its rows.
-/

namespace TravelAgent

/-! ## 32-bit word primitives (hashlib works on 32-bit words) -/

/-- The 32-bit modulus. -/
def w32 : Nat := 4294967296

/-- Right-rotate a 32-bit word by `k` bits. -/
def rotr32 (k n : Nat) : Nat :=
  ((n % w32) / 2 ^ k + (n % w32) % 2 ^ k * 2 ^ (32 - k)) % w32

/-- Left-rotate a 32-bit word by `k` bits (used by MD5). -/
def rotl32 (k n : Nat) : Nat :=
  ((n % w32) % 2 ^ (32 - k) * 2 ^ k + (n % w32) / 2 ^ (32 - k)) % w32

/-- Logical right shift on a 32-bit word. -/
def shr32 (k n : Nat) : Nat := (n % w32) / 2 ^ k

/-- Bitwise complement on a 32-bit word. -/
def bnot32 (n : Nat) : Nat := (n % w32) ^^^ (w32 - 1)

/-! ## SHA-256 (FIPS 180-4), the digest used by `hashlib.sha256` -/

/-- The SHA-256 round constants (fractional parts of cube roots of the
first 64 primes). -/
def sha256K : List Nat :=
  [1116352408, 1899447441, 3049323471, 3921009573, 961987163, 1508970993,
   2453635748, 2870763221, 3624381080, 310598401, 607225278, 1426881987,
   1925078388, 2162078206, 2614888103, 3248222580, 3835390401, 4022224774,
   264347078, 604807628, 770255983, 1249150122, 1555081692, 1996064986,
   2554220882, 2821834349, 2952996808, 3210313671, 3336571891, 3584528711,
   113926993, 338241895, 666307205, 773529912, 1294757372, 1396182291,
   1695183700, 1986661051, 2177026350, 2456956037, 2730485921, 2820302411,
   3259730800, 3345764771, 3516065817, 3600352804, 4094571909, 275423344,
   430227734, 506948616, 659060556, 883997877, 958139571, 1322822218,
   1537002063, 1747873779, 1955562222, 2024104815, 2227730452, 2361852424,
   2428436474, 2756734187, 3204031479, 3329325298]

/-- The SHA-256 hash state: eight 32-bit words. -/
structure Sha256State where
  a : Nat
  b : Nat
  c : Nat
  d : Nat
  e : Nat
  f : Nat
  g : Nat
  h : Nat

/-- The SHA-256 initial hash value (fractional parts of square roots of
the first 8 primes). -/
def sha256Init : Sha256State :=
  ⟨1779033703, 3144134277, 1013904242, 2773480762,
   1359893119, 2600822924, 528734635, 1541459225⟩

/-- Big-endian 8-byte encoding of a (64-bit) natural number. -/
def be64 (n : Nat) : List Nat :=
  [n / 2 ^ 56 % 256, n / 2 ^ 48 % 256, n / 2 ^ 40 % 256, n / 2 ^ 32 % 256,
   n / 2 ^ 24 % 256, n / 2 ^ 16 % 256, n / 2 ^ 8 % 256, n % 256]

/-- Fuel-driven worker for `groupsOf` (structural recursion on the fuel,
so that it evaluates inside the kernel; the fuel is always instantiated
with the list length). -/
def groupsOfAux (p : Nat) : Nat → List α → List (List α)
  | 0, _ => []
  | _, [] => []
  | fuel + 1, x :: xs =>
      (x :: xs).take (p + 1) :: groupsOfAux p fuel ((x :: xs).drop (p + 1))

/-- Split a list into consecutive groups of `p + 1` elements (the last
group may be shorter).  Shared by the hash block/word grouping and the
vector-store batching loop. -/
def groupsOf (p : Nat) (l : List α) : List (List α) := groupsOfAux p l.length l

theorem groupsOfAux_fuel (p : Nat) :
    ∀ (f₁ : Nat) (l : List α) (f₂ : Nat), l.length ≤ f₁ → l.length ≤ f₂ →
      groupsOfAux p f₁ l = groupsOfAux p f₂ l := by
  intro f₁
  induction f₁ with
  | zero =>
      intro l f₂ h1 _
      have : l = [] := List.eq_nil_of_length_eq_zero (by omega)
      subst this
      cases f₂ <;> rfl
  | succ f ih =>
      intro l f₂ h1 h2
      cases l with
      | nil => cases f₂ <;> rfl
      | cons x xs =>
          cases f₂ with
          | zero => simp at h2
          | succ f' =>
              simp only [groupsOfAux]
              congr 1
              have h1' : xs.length ≤ f := by simpa using h1
              have h2' : xs.length ≤ f' := by simpa using h2
              exact ih _ _ (by simp only [List.length_drop, List.length_cons]; omega)
                (by simp only [List.length_drop, List.length_cons]; omega)

theorem groupsOf_nil (p : Nat) : groupsOf p ([] : List α) = [] := rfl

theorem groupsOf_cons (p : Nat) (x : α) (xs : List α) :
    groupsOf p (x :: xs)
      = (x :: xs).take (p + 1) :: groupsOf p ((x :: xs).drop (p + 1)) := by
  show groupsOfAux p (xs.length + 1) (x :: xs) = _
  simp only [groupsOfAux]
  congr 1
  exact groupsOfAux_fuel p xs.length _ _ (by simp only [List.length_drop, List.length_cons]; omega)
    (le_refl _)

/-- Merkle–Damgård padding shared by SHA-256 and MD5: append `0x80`, pad
with zero bytes to 56 mod 64, then the 8-byte bit length (`lenBytes` is
the big- or little-endian length encoding). -/
def mdPad (lenBytes : Nat → List Nat) (msg : List Nat) : List Nat :=
  msg ++ 0x80 :: List.replicate ((64 - (msg.length + 9) % 64) % 64) 0
      ++ lenBytes (8 * msg.length)

/-- Interpret four bytes as a big-endian 32-bit word. -/
def beWord (bs : List Nat) : Nat := bs.foldl (fun a x => a * 256 + x % 256) 0

/-- The sixteen big-endian message words of one 64-byte SHA-256 block. -/
def sha256BlockWords (block : List Nat) : List Nat := (groupsOf 3 block).map beWord

/-- Extend the sixteen block words to the 64-entry SHA-256 message
schedule. -/
def sha256Schedule (ws : List Nat) : List Nat :=
  (List.range 48).foldl
    (fun acc _ =>
      let n := acc.length
      let s0 := rotr32 7 (acc.getD (n - 15) 0) ^^^ rotr32 18 (acc.getD (n - 15) 0)
        ^^^ shr32 3 (acc.getD (n - 15) 0)
      let s1 := rotr32 17 (acc.getD (n - 2) 0) ^^^ rotr32 19 (acc.getD (n - 2) 0)
        ^^^ shr32 10 (acc.getD (n - 2) 0)
      acc ++ [(acc.getD (n - 16) 0 + s0 + acc.getD (n - 7) 0 + s1) % w32])
    ws

/-- One SHA-256 compression round. -/
def sha256Round (st : Sha256State) (kw : Nat × Nat) : Sha256State :=
  let S1 := rotr32 6 st.e ^^^ rotr32 11 st.e ^^^ rotr32 25 st.e
  let ch := st.e &&& st.f ^^^ bnot32 st.e &&& st.g
  let t1 := (st.h + S1 + ch + kw.1 + kw.2) % w32
  let S0 := rotr32 2 st.a ^^^ rotr32 13 st.a ^^^ rotr32 22 st.a
  let mj := st.a &&& st.b ^^^ st.a &&& st.c ^^^ st.b &&& st.c
  let t2 := (S0 + mj) % w32
  ⟨(t1 + t2) % w32, st.a, st.b, st.c, (st.d + t1) % w32, st.e, st.f, st.g⟩

/-- Compress one 64-byte block into the running SHA-256 state. -/
def sha256Compress (st : Sha256State) (block : List Nat) : Sha256State :=
  let ws := sha256Schedule (sha256BlockWords block)
  let r := (sha256K.zip ws).foldl sha256Round st
  ⟨(st.a + r.a) % w32, (st.b + r.b) % w32, (st.c + r.c) % w32, (st.d + r.d) % w32,
   (st.e + r.e) % w32, (st.f + r.f) % w32, (st.g + r.g) % w32, (st.h + r.h) % w32⟩

/-- Big-endian bytes of one 32-bit word. -/
def beWordBytes (n : Nat) : List Nat :=
  [n / 2 ^ 24 % 256, n / 2 ^ 16 % 256, n / 2 ^ 8 % 256, n % 256]

/-- The 32 output bytes of a final SHA-256 state. -/
def sha256StateBytes (st : Sha256State) : List Nat :=
  beWordBytes st.a ++ beWordBytes st.b ++ beWordBytes st.c ++ beWordBytes st.d ++
  beWordBytes st.e ++ beWordBytes st.f ++ beWordBytes st.g ++ beWordBytes st.h

/-- SHA-256 digest (32 bytes) of a byte string. -/
def sha256Bytes (msg : List Nat) : List Nat :=
  sha256StateBytes ((groupsOf 63 (mdPad be64 msg)).foldl sha256Compress sha256Init)

/-- Lower-case hexadecimal digit. -/
def hexChar (n : Nat) : Char :=
  if n = 0 then '0' else if n = 1 then '1' else if n = 2 then '2'
  else if n = 3 then '3' else if n = 4 then '4' else if n = 5 then '5'
  else if n = 6 then '6' else if n = 7 then '7' else if n = 8 then '8'
  else if n = 9 then '9' else if n = 10 then 'a' else if n = 11 then 'b'
  else if n = 12 then 'c' else if n = 13 then 'd' else if n = 14 then 'e'
  else 'f'

/-- Lower-case hex string of a byte list, as `hexdigest()` renders it. -/
def bytesToHex (bs : List Nat) : String :=
  ⟨bs.flatMap fun b => [hexChar (b / 16 % 16), hexChar (b % 16)]⟩

/-- `hashlib.sha256(msg).hexdigest()`. -/
def sha256Hex (msg : List Nat) : String := bytesToHex (sha256Bytes msg)

/-! ## MD5 (RFC 1321), used inside the vector store's `_chunk_id` -/

/-- The 64 MD5 sine-derived round constants. -/
def md5K : List Nat :=
  [3614090360, 3905402710, 606105819, 3250441966, 4118548399, 1200080426,
   2821735955, 4249261313, 1770035416, 2336552879, 4294925233, 2304563134,
   1804603682, 4254626195, 2792965006, 1236535329, 4129170786, 3225465664,
   643717713, 3921069994, 3593408605, 38016083, 3634488961, 3889429448,
   568446438, 3275163606, 4107603335, 1163531501, 2850285829, 4243563512,
   1735328473, 2368359562, 4294588738, 2272392833, 1839030562, 4259657740,
   2763975236, 1272893353, 4139469664, 3200236656, 681279174, 3936430074,
   3572445317, 76029189, 3654602809, 3873151461, 530742520, 3299628645,
   4096336452, 1126891415, 2878612391, 4237533241, 1700485571, 2399980690,
   4293915773, 2240044497, 1873313359, 4264355552, 2734768916, 1309151649,
   4149444226, 3174756917, 718787259, 3951481745]

/-- The MD5 per-round left-rotation amounts. -/
def md5S : List Nat :=
  [7, 12, 17, 22, 7, 12, 17, 22, 7, 12, 17, 22, 7, 12, 17, 22,
   5, 9, 14, 20, 5, 9, 14, 20, 5, 9, 14, 20, 5, 9, 14, 20,
   4, 11, 16, 23, 4, 11, 16, 23, 4, 11, 16, 23, 4, 11, 16, 23,
   6, 10, 15, 21, 6, 10, 15, 21, 6, 10, 15, 21, 6, 10, 15, 21]

/-- Little-endian 8-byte encoding of a (64-bit) natural number. -/
def le64 (n : Nat) : List Nat :=
  [n % 256, n / 2 ^ 8 % 256, n / 2 ^ 16 % 256, n / 2 ^ 24 % 256,
   n / 2 ^ 32 % 256, n / 2 ^ 40 % 256, n / 2 ^ 48 % 256, n / 2 ^ 56 % 256]

/-- Interpret four bytes as a little-endian 32-bit word. -/
def leWord (bs : List Nat) : Nat := bs.foldr (fun x a => a * 256 + x % 256) 0

/-- The MD5 state: four 32-bit words. -/
structure Md5State where
  a : Nat
  b : Nat
  c : Nat
  d : Nat

/-- The MD5 initial state. -/
def md5Init : Md5State := ⟨1732584193, 4023233417, 2562383102, 271733878⟩

/-- One MD5 round: `i` is the round index, `m` the sixteen message words
of the current block. -/
def md5Round (m : List Nat) (st : Md5State) (i : Nat) : Md5State :=
  let fg : Nat × Nat :=
    if i < 16 then (st.b &&& st.c ^^^ bnot32 st.b &&& st.d, i)
    else if i < 32 then (st.d &&& st.b ^^^ bnot32 st.d &&& st.c, (5 * i + 1) % 16)
    else if i < 48 then (st.b ^^^ st.c ^^^ st.d, (3 * i + 5) % 16)
    else (st.c ^^^ (st.b ||| bnot32 st.d), 7 * i % 16)
  let rot := rotl32 (md5S.getD i 0)
    (st.a + fg.1 + md5K.getD i 0 + m.getD fg.2 0)
  ⟨st.d, (st.b + rot) % w32, st.b, st.c⟩

/-- Compress one 64-byte block into the running MD5 state. -/
def md5Compress (st : Md5State) (block : List Nat) : Md5State :=
  let m := (groupsOf 3 block).map leWord
  let r := (List.range 64).foldl (md5Round m) st
  ⟨(st.a + r.a) % w32, (st.b + r.b) % w32, (st.c + r.c) % w32, (st.d + r.d) % w32⟩

/-- Little-endian bytes of one 32-bit word. -/
def leWordBytes (n : Nat) : List Nat :=
  [n % 256, n / 2 ^ 8 % 256, n / 2 ^ 16 % 256, n / 2 ^ 24 % 256]

/-- MD5 digest (16 bytes) of a byte string. -/
def md5Bytes (msg : List Nat) : List Nat :=
  let st := (groupsOf 63 (mdPad le64 msg)).foldl md5Compress md5Init
  leWordBytes st.a ++ leWordBytes st.b ++ leWordBytes st.c ++ leWordBytes st.d

/-- `hashlib.md5(msg).hexdigest()`. -/
def md5Hex (msg : List Nat) : String := bytesToHex (md5Bytes msg)

/-! ## UTF-8 encoding (`str.encode("utf-8")`) -/

/-- UTF-8 bytes of one code point. -/
def utf8Char (c : Char) : List Nat :=
  let n := c.toNat
  if n < 0x80 then [n]
  else if n < 0x800 then [0xc0 + n / 64, 0x80 + n % 64]
  else if n < 0x10000 then [0xe0 + n / 4096, 0x80 + n / 64 % 64, 0x80 + n % 64]
  else [0xf0 + n / 262144, 0x80 + n / 4096 % 64, 0x80 + n / 64 % 64, 0x80 + n % 64]

/-- UTF-8 encoding of a string as a byte list. -/
def utf8Encode (s : String) : List Nat := s.data.flatMap utf8Char

/-! ## Canonical JSON serialization
`json.dumps(payload, sort_keys=True, ensure_ascii=False)` with the default
separators `", "` and `": "`. -/

/-- The decimal digit characters. -/
def digitChar (n : Nat) : Char :=
  if n = 0 then '0' else if n = 1 then '1' else if n = 2 then '2'
  else if n = 3 then '3' else if n = 4 then '4' else if n = 5 then '5'
  else if n = 6 then '6' else if n = 7 then '7' else if n = 8 then '8'
  else '9'

/-- Decimal rendering of a natural number, as Python renders an `int`. -/
def natDecimal (n : Nat) : List Char :=
  if _h : n < 10 then [digitChar n]
  else natDecimal (n / 10) ++ [digitChar (n % 10)]
termination_by n
decreasing_by omega

/-- Decimal rendering of an integer, as Python renders an `int`
(a leading minus sign for negative values). -/
def intDecimal (i : Int) : List Char :=
  if i < 0 then '-' :: natDecimal (-i).toNat else natDecimal i.toNat

/-- JSON escaping of one character, as `json.dumps(..., ensure_ascii=False)`
performs it: escape the quote, the backslash and control characters
(short escapes for the common ones, `\u00XX` otherwise); every other
character is emitted unchanged. -/
def jsonEscChar (c : Char) : List Char :=
  if c = '"' then ['\\', '"']
  else if c = '\\' then ['\\', '\\']
  else if c = '\n' then ['\\', 'n']
  else if c = '\t' then ['\\', 't']
  else if c = '\r' then ['\\', 'r']
  else if c.toNat = 8 then ['\\', 'b']
  else if c.toNat = 12 then ['\\', 'f']
  else if c.toNat < 0x20 then
    ['\\', 'u', '0', '0', hexChar (c.toNat / 16), hexChar (c.toNat % 16)]
  else [c]

/-- JSON escaping of a character sequence. -/
def jsonEsc (s : List Char) : List Char := s.flatMap jsonEscChar

/-- The canonical JSON payload hashed by `make_chunk_id`, character by
character: the dict
`{"source_path": ..., "page_number": ..., "chunk_index": ..., "content": ...}`
serialized with sorted keys (`chunk_index < content < page_number <
source_path`) and the default separators. -/
def chunkIdPayloadChars (source_path : String) (page_number : Int)
    (chunk_index : Nat) (content : String) : List Char :=
  "\x7b\"chunk_index\": ".data ++ natDecimal chunk_index
    ++ ", \"content\": \"".data ++ jsonEsc content.data
    ++ "\", \"page_number\": ".data ++ intDecimal page_number
    ++ ", \"source_path\": \"".data ++ jsonEsc source_path.data
    ++ "\"\x7d".data

/-- The canonical JSON payload of `make_chunk_id`, as a string. -/
def chunkIdPayload (source_path : String) (page_number : Int)
    (chunk_index : Nat) (content : String) : String :=
  ⟨chunkIdPayloadChars source_path page_number chunk_index content⟩

/-- `IngestionService.make_chunk_id`: the SHA-256 hex digest of the
canonical sorted-key JSON encoding of
`(source_path, page_number, chunk_index, content)`. -/
def make_chunk_id (pdf_path : String) (page_number : Int)
    (chunk_index : Nat) (content : String) : String :=
  sha256Hex (utf8Encode (chunkIdPayload pdf_path page_number chunk_index content))

/-! ## Data model -/

/-- Loader-supplied page metadata: the optional `page_number` entry that
`page.metadata.get("page_number")` reads, plus whatever other key/value
pairs the document loader attached (carried along by
`dict(page.metadata)`). -/
structure PageMeta where
  page_number : Option Int
  extra : List (String × String)
deriving DecidableEq

/-- A LangChain page `Document`: `page_content` text plus metadata. -/
structure Page where
  page_content : String
  metadata : PageMeta
deriving DecidableEq

/-- The chunk metadata mapping after `chunk_pages` overlays its lineage
fields on the loader metadata. -/
structure ChunkMeta where
  extra : List (String × String)
  source_file : String
  source_path : String
  page_number : Option Int
  chunk_index : Nat
  chunk_id : String
deriving DecidableEq

/-- Modelled from the spec: `DocumentChunk` lives in
`travel_assistant/models/schemas.py`, which is absent from the sources;
per the spec's data model it is a record of a `content` string plus the
metadata mapping, immutable after creation.  `vector_store.py` reads the
chunk text through a `.text` accessor; following the spec
(`content: string`), that accessor is the chunk's content. -/
structure DocumentChunk where
  content : String
  metadata : ChunkMeta
deriving DecidableEq

/-- `pathlib.Path.name`: the final path component (the characters after
the last `/`). -/
def pathName (p : String) : String :=
  ⟨p.data.foldl (fun acc c => if c = '/' then [] else acc ++ [c]) []⟩

/-- Whether a file name matches the glob pattern `*.pdf`: its last four
characters are `.pdf`. -/
def isPdfName (n : String) : Bool := n.data.reverse.take 4 == ['f', 'd', 'p', '.']

/-- `IngestionService.chunk_pages`: split each page with the configured
splitter, then wrap every split with lineage metadata and a chunk id.
The splitter (`RecursiveCharacterTextSplitter.split_text`, an external
LangChain collaborator) is passed as a function.  The `-1` fallback
mirrors `int(page_num) if page_num is not None else -1`. -/
def chunk_pages (split_text : String → List String) (pages : List Page)
    (pdf_path : String) : List DocumentChunk :=
  pages.flatMap fun page =>
    let page_num := page.metadata.page_number
    (split_text page.page_content).enum.map fun it =>
      { content := it.2
        metadata :=
          { extra := page.metadata.extra
            source_file := pathName pdf_path
            source_path := pdf_path
            page_number := page_num
            chunk_index := it.1
            chunk_id := make_chunk_id pdf_path
              (match page_num with
               | some k => k
               | none => -1) it.1 it.2 } }

/-- One line of the JSONL output file: the explicit
`{"chunk_id": ..., "content": ..., "metadata": ...}` row schema. -/
structure JsonlRow where
  chunk_id : String
  content : String
  metadata : ChunkMeta
deriving DecidableEq

/-- `IngestionService.write_chunks_to_jsonl`: one serialized row per
chunk, in order; returns the written file (first component, the model of
the file's lines) and the returned output path (second component). -/
def write_chunks_to_jsonl (chunks : List DocumentChunk) (output_path : String) :
    List JsonlRow × String :=
  (chunks.map fun c =>
     { chunk_id := c.metadata.chunk_id, content := c.content, metadata := c.metadata },
   output_path)

/-- A directory on disk: `none` when it does not exist, otherwise the
list of file paths it contains (in whatever order the file system
enumerates them). -/
structure Dir where
  listing : Option (List String)

/-- Errors raised by the ingestion pipeline.  `directoryNotFound` models
the `ValueError("Directory ... does not exist.")` that the spec calls
`DirectoryNotFoundError`. -/
inductive IngestError where
  | directoryNotFound
deriving DecidableEq

/-- `IngestionService.list_pdfs`: raise when the directory does not
exist, otherwise the `*.pdf` entries sorted (Python's `sorted` on the
glob result) for deterministic iteration order. -/
def list_pdfs (docs_dir : Dir) : Except IngestError (List String) :=
  match docs_dir.listing with
  | none => .error .directoryNotFound
  | some names =>
      .ok (List.insertionSort (· ≤ ·) (names.filter isPdfName))

/-- `IngestionService.ingest_directory_to_jsonl`: list the PDFs, load and
chunk each (the loader `load_pdf_pages` is the external PyPDFLoader
collaborator, passed as a function from path to pages), accumulate the
chunks in order, write them out.  The Python function returns only the
output path; the model also exposes the written file (the
`write_chunks_to_jsonl` pair). -/
def ingest_directory_to_jsonl (split_text : String → List String)
    (load_pdf_pages : String → List Page) (docs_dir : Dir)
    (output_path : String) : Except IngestError (List JsonlRow × String) :=
  match list_pdfs docs_dir with
  | .error e => .error e
  | .ok pdfs =>
      let all_chunks := pdfs.flatMap fun pdf_path =>
        chunk_pages split_text (load_pdf_pages pdf_path) pdf_path
      .ok (write_chunks_to_jsonl all_chunks output_path)

/-- The list of chunk ids persisted by a run (empty when the run fails);
the quantity claim C2's "set of chunk_id values" is about. -/
def runChunkIds (r : Except IngestError (List JsonlRow × String)) : List String :=
  match r with
  | .error _ => []
  | .ok (rows, _) => rows.map (·.chunk_id)

/-! ## Configuration (`travel_assistant/core/config.py`) -/

/-- The chunking-relevant raw configuration values a `Settings()`
construction receives from the environment/defaults.  The remaining
`Settings` fields (model names, URLs, store paths) carry no constraints
and do not interact with these, so they are omitted from the model. -/
structure SettingsInput where
  chunk_size : Int
  chunk_overlap : Int

/-- A validated `Settings` value (chunking fields). -/
structure Settings where
  chunk_size : Int
  chunk_overlap : Int
deriving DecidableEq

/-- Configuration failures: pydantic per-field range violations
(`Field(ge=..., le=...)`) and the cross-field `ValueError` from
`validate_chunking` (the spec's `ConfigurationError`). -/
inductive ConfigError where
  | fieldOutOfRange (field : String)
  | chunkOverlapNotLessThanSize
deriving DecidableEq

/-- `Settings.validate_chunking`: `chunk_overlap` must be smaller than
`chunk_size`, else raise. -/
def Settings.validate_chunking (s : Settings) : Except ConfigError Unit :=
  if s.chunk_overlap ≥ s.chunk_size then .error .chunkOverlapNotLessThanSize
  else .ok ()

/-- `Settings.load`: construct `Settings` (pydantic enforces
`chunk_size : ge=200, le=4000` and `chunk_overlap : ge=0, le=2000` at
construction), then run `validate_chunking`, then return the validated
object. -/
def Settings.load (env : SettingsInput) : Except ConfigError Settings :=
  if env.chunk_size < 200 then .error (.fieldOutOfRange "chunk_size")
  else if 4000 < env.chunk_size then .error (.fieldOutOfRange "chunk_size")
  else if env.chunk_overlap < 0 then .error (.fieldOutOfRange "chunk_overlap")
  else if 2000 < env.chunk_overlap then .error (.fieldOutOfRange "chunk_overlap")
  else
    match Settings.validate_chunking ⟨env.chunk_size, env.chunk_overlap⟩ with
    | .error e => .error e
    | .ok _ => .ok ⟨env.chunk_size, env.chunk_overlap⟩

/-! ## Vector store (`travel_assistant/services/vector_store.py`)

The embedding vectors' element type is treated abstractly (a type
parameter `V`): nothing in `upsert_chunks` inspects a vector, it only
moves them around, so the claims hold for any vector type. -/

/-- Python whitespace characters, as `str.strip()` removes them
(ASCII whitespace, the C1 separators, NEL, NBSP and the Unicode space
code points). -/
def pyIsSpace (c : Char) : Bool :=
  let n := c.toNat
  n = 0x20 || (0x9 ≤ n && n ≤ 0xd) || (0x1c ≤ n && n ≤ 0x1f) || n = 0x85 ||
    n = 0xa0 || n = 0x1680 || (0x2000 ≤ n && n ≤ 0x200a) || n = 0x2028 ||
    n = 0x2029 || n = 0x202f || n = 0x205f || n = 0x3000

/-- Truthiness of `c.text and c.text.strip()`: the text is non-empty and
not whitespace-only, i.e. some character is not whitespace. -/
def chunkTextTruthy (c : DocumentChunk) : Bool := !(c.content.data.all pyIsSpace)

/-- `str(x)` for the `page_number` slot of the `_chunk_id` f-string:
`None` renders as `"None"`, an int in decimal. -/
def pyOptIntStr : Option Int → String
  | none => "None"
  | some k => ⟨intDecimal k⟩

/-- `VectorStoreService._chunk_id`: the store key, the SHA-256 hex digest
of `f"{source_file}|{page_number}|{chunk_id}|{md5(content)}"`. -/
def _chunk_id (chunk : DocumentChunk) : String :=
  sha256Hex (utf8Encode
    (chunk.metadata.source_file ++ "|" ++ pyOptIntStr chunk.metadata.page_number
      ++ "|" ++ chunk.metadata.chunk_id ++ "|"
      ++ md5Hex (utf8Encode chunk.content)))

/-- One entry of the Chroma collection: id, embedding vector, metadata
and document text. -/
structure StoreEntry (V : Type) where
  id : String
  embedding : V
  metadata : ChunkMeta
  document : String

/-- Errors raised by `upsert_chunks`: the embedding-count `ValueError`
(the spec's `EmbeddingMismatchError`), and the `ValueError` Python's
`range` raises on a zero step.  The error carries the collection state at
the moment of the raise — already-committed batches stay committed. -/
inductive UpsertError where
  | embeddingMismatch
  | invalidBatchSize
deriving DecidableEq

/-- Insert-or-replace one entry by its id (Chroma `upsert` semantics for
a single id). -/
def upsertEntry (store : List (StoreEntry V)) (e : StoreEntry V) :
    List (StoreEntry V) :=
  if store.any fun x => x.id == e.id then
    store.map fun x => if x.id == e.id then e else x
  else store ++ [e]

/-- `collection.upsert(ids=..., embeddings=..., metadatas=..., documents=...)`
over the positionally zipped lists of one batch. -/
def collectionUpsert (store : List (StoreEntry V)) (entries : List (StoreEntry V)) :
    List (StoreEntry V) :=
  entries.foldl upsertEntry store

/-- The entries one batch contributes: ids, embeddings, metadatas and
documents zipped positionally. -/
def batchEntries (batch : List DocumentChunk) (embeddings : List V) :
    List (StoreEntry V) :=
  List.zipWith (fun c v => ⟨_chunk_id c, v, c.metadata, c.content⟩) batch embeddings

/-- The sequential batch loop of `upsert_chunks`: embed each batch, check
the returned vector count, upsert, accumulate the count.  A mismatch
raises, leaving the batches committed so far in the store. -/
def upsertBatches (embed_texts : List String → List V) :
    List (StoreEntry V) → Nat → List (List DocumentChunk) →
    Except (UpsertError × List (StoreEntry V)) (List (StoreEntry V) × Nat)
  | store, total, [] => .ok (store, total)
  | store, total, batch :: rest =>
      let texts := batch.map (·.content)
      let embeddings := embed_texts texts
      if embeddings.length ≠ batch.length then .error (.embeddingMismatch, store)
      else
        upsertBatches embed_texts (collectionUpsert store (batchEntries batch embeddings))
          (total + batch.length) rest

/-- `VectorStoreService.upsert_chunks`: filter out chunks whose text is
empty/whitespace-only, return 0 on an empty remainder, then process the
remainder in `batch_size`-sized slices (`valid[i:i + batch_size]`).
Returns the final collection state and the upserted count. -/
def upsert_chunks (embed_texts : List String → List V)
    (store : List (StoreEntry V)) (chunks : List DocumentChunk)
    (batch_size : Nat) :
    Except (UpsertError × List (StoreEntry V)) (List (StoreEntry V) × Nat) :=
  if (chunks.filter chunkTextTruthy).isEmpty then .ok (store, 0)
  else if batch_size = 0 then .error (.invalidBatchSize, store)
  else upsertBatches embed_texts store 0
    (groupsOf (batch_size - 1) (chunks.filter chunkTextTruthy))

/-! ## Helper definitions for the statements and proofs -/

instance : IsTotal String (· ≤ ·) := ⟨le_total⟩

instance : IsTrans String (· ≤ ·) := ⟨fun _ _ _ => le_trans⟩

instance : IsAntisymm String (· ≤ ·) := ⟨fun _ _ => le_antisymm⟩

/-- The row `write_chunks_to_jsonl` serializes for one chunk. -/
def jsonlRowOf (c : DocumentChunk) : JsonlRow :=
  { chunk_id := c.metadata.chunk_id, content := c.content, metadata := c.metadata }

/-- The chunks `chunk_pages` produces for a single page. -/
def pageChunks (split_text : String → List String) (pdf_path : String)
    (page : Page) : List DocumentChunk :=
  let page_num := page.metadata.page_number
  (split_text page.page_content).enum.map fun it =>
    { content := it.2
      metadata :=
        { extra := page.metadata.extra
          source_file := pathName pdf_path
          source_path := pdf_path
          page_number := page_num
          chunk_index := it.1
          chunk_id := make_chunk_id pdf_path
            (match page_num with
             | some k => k
             | none => -1) it.1 it.2 } }

theorem chunk_pages_eq_flatMap (split_text : String → List String)
    (pages : List Page) (pdf_path : String) :
    chunk_pages split_text pages pdf_path
      = pages.flatMap (pageChunks split_text pdf_path) := rfl

/-- The `chunk_index` values of the chunks belonging to one
`(source_file, page_number)` group, in accumulated order. -/
def groupChunkIndices (chunks : List DocumentChunk) (source_file : String)
    (page_number : Option Int) : List Nat :=
  (chunks.filter fun c =>
      c.metadata.source_file == source_file && c.metadata.page_number == page_number).map
    (·.metadata.chunk_index)

/-- The chunks that survive the empty/whitespace filter of
`upsert_chunks`. -/
def validChunks (chunks : List DocumentChunk) : List DocumentChunk :=
  chunks.filter chunkTextTruthy

/-- The batch slices `upsert_chunks` iterates over (for a positive
`batch_size`). -/
def chunkBatches (batch_size : Nat) (chunks : List DocumentChunk) :
    List (List DocumentChunk) :=
  groupsOf (batch_size - 1) (validChunks chunks)

/-- Committing one batch: embed its texts and upsert the zipped
entries. -/
def commitBatch (embed_texts : List String → List V)
    (store : List (StoreEntry V)) (batch : List DocumentChunk) :
    List (StoreEntry V) :=
  collectionUpsert store (batchEntries batch (embed_texts (batch.map (·.content))))

/-- Concrete single-chunk-per-page splitter for counterexamples. -/
def demoSplit : String → List String := fun t => [t]

/-- Concrete two-chunks-per-page splitter for counterexamples. -/
def demoSplitTwo : String → List String := fun t => [t ++ "A", t ++ "B"]

/-- Concrete one-page loader for counterexamples. -/
def demoLoader : String → List Page := fun _ => [⟨"hello", ⟨some 0, []⟩⟩]

/-! ## C10 — page-number sentinel collision -/

/-- C10: the chunk ids `chunk_pages` attaches to the chunks of a page
with no `page_number` (`none`) coincide, chunk for chunk, with the ids it
attaches for the same page carrying the literal page number `-1`: the
missing page number is replaced by the sentinel `-1` before hashing, so
the two cases are indistinguishable by `chunk_id` — for every splitter,
path and page text. -/
theorem chunk_pages_none_vs_minus_one_same_chunk_id
    (split_text : String → List String) (pdf_path text : String)
    (extra : List (String × String)) :
    (chunk_pages split_text [⟨text, ⟨none, extra⟩⟩] pdf_path).map (·.metadata.chunk_id)
      = (chunk_pages split_text [⟨text, ⟨some (-1), extra⟩⟩] pdf_path).map
          (·.metadata.chunk_id) := by
  simp [chunk_pages, List.map_map]

/-! ## C6 — one JSONL row per chunk, in order -/

/-- C6: `write_chunks_to_jsonl` writes exactly one serialized row per
input chunk — the row count equals the chunk count, the `i`-th row is the
`{chunk_id, content, metadata}` record of the `i`-th chunk — and the
returned value is the output path. -/
theorem write_chunks_to_jsonl_one_row_per_chunk
    (chunks : List DocumentChunk) (output_path : String) :
    (write_chunks_to_jsonl chunks output_path).1.length = chunks.length ∧
    (write_chunks_to_jsonl chunks output_path).2 = output_path ∧
    ∀ i (hi : i < (write_chunks_to_jsonl chunks output_path).1.length)
      (hj : i < chunks.length),
      (write_chunks_to_jsonl chunks output_path).1[i] = jsonlRowOf chunks[i] := by
  refine ⟨by simp [write_chunks_to_jsonl], rfl, ?_⟩
  intro i hi hj
  simp [write_chunks_to_jsonl, jsonlRowOf]

/-- C6 witness: the theorem instantiated on a concrete two-chunk list. -/
theorem write_chunks_to_jsonl_one_row_per_chunk_witness :
    (write_chunks_to_jsonl
        [⟨"x", ⟨[], "a.pdf", "a.pdf", some 1, 0, "id0"⟩⟩,
         ⟨"y", ⟨[], "a.pdf", "a.pdf", some 1, 1, "id1"⟩⟩] "out.jsonl").1[0]
      = jsonlRowOf ⟨"x", ⟨[], "a.pdf", "a.pdf", some 1, 0, "id0"⟩⟩ :=
  (write_chunks_to_jsonl_one_row_per_chunk _ "out.jsonl").2.2 0 (by decide) (by decide)

/-! ## C7 — listing documents -/

/-- C7: for a missing directory `list_pdfs` fails with the
directory-not-found error; for every existing directory it returns the
`.pdf` entries, sorted, exactly the PDF files present (a permutation of
the filtered listing). -/
theorem list_pdfs_sorted_or_missing_dir :
    (∀ d : Dir, d.listing = none → list_pdfs d = .error .directoryNotFound) ∧
    ∀ names : List String,
      ∃ l, list_pdfs ⟨some names⟩ = .ok l ∧ l.Sorted (· ≤ ·) ∧
        l.Perm (names.filter isPdfName) := by
  constructor
  · rintro ⟨_⟩ rfl; rfl
  · intro names
    exact ⟨_, rfl, List.sorted_insertionSort _ _, List.perm_insertionSort _ _⟩

/-- C7 witness: the theorem applied to a concrete missing directory and a
concrete listing. -/
theorem list_pdfs_sorted_or_missing_dir_witness :
    list_pdfs ⟨none⟩ = .error .directoryNotFound :=
  list_pdfs_sorted_or_missing_dir.1 ⟨none⟩ rfl

/-! ## C8 — empty directory, and what the pipeline returns -/

/-- C8 (amended): on an empty existing directory `list_pdfs` returns the
empty sequence and `ingest_directory_to_jsonl` writes a file with 0 rows;
in general the pipeline's return value is the output path alone —
`pdf_count` and `chunk_count` are logged, not returned. -/
theorem ingest_empty_directory_and_return_value :
    (list_pdfs ⟨some []⟩ = .ok []) ∧
    (∀ (split_text : String → List String) (load_pdf_pages : String → List Page)
       (output_path : String),
       ingest_directory_to_jsonl split_text load_pdf_pages ⟨some []⟩ output_path
         = .ok ([], output_path)) ∧
    ∀ (split_text : String → List String) (load_pdf_pages : String → List Page)
      (d : Dir) (output_path : String) (rows : List JsonlRow) (ret : String),
      ingest_directory_to_jsonl split_text load_pdf_pages d output_path
          = .ok (rows, ret) →
      ret = output_path := by
  refine ⟨rfl, fun _ _ _ => rfl, ?_⟩
  intro split_text load_pdf_pages d output_path rows ret h
  unfold ingest_directory_to_jsonl at h
  cases hd : list_pdfs d with
  | error e => rw [hd] at h; cases h
  | ok pdfs =>
      rw [hd] at h
      simp only [write_chunks_to_jsonl, Except.ok.injEq, Prod.mk.injEq] at h
      exact h.2.symm

/-- C8 witness: the general return-value conjunct applied at a concrete
successful run. -/
theorem ingest_empty_directory_and_return_value_witness :
    "out.jsonl" = "out.jsonl" :=
  ingest_empty_directory_and_return_value.2.2 demoSplit demoLoader ⟨some []⟩
    "out.jsonl" [] "out.jsonl"
    (ingest_empty_directory_and_return_value.2.1 demoSplit demoLoader "out.jsonl")

/-- C8 counterexample: the claim says `ingest_directory` returns a
summary containing `pdf_count` and `chunk_count`; in the code the return
value is the output path alone.  Two runs with different pdf/chunk counts
(0 and 1) return the *same* value, so no summary data is part of the
return value. -/
theorem ingest_return_value_not_a_summary :
    (ingest_directory_to_jsonl demoSplit demoLoader ⟨some []⟩ "out.jsonl").toOption.map
        (·.2)
      = (ingest_directory_to_jsonl demoSplit demoLoader ⟨some ["a.pdf"]⟩
          "out.jsonl").toOption.map (·.2) ∧
    (ingest_directory_to_jsonl demoSplit demoLoader ⟨some []⟩ "out.jsonl").toOption.map
        (·.1.length)
      ≠ (ingest_directory_to_jsonl demoSplit demoLoader ⟨some ["a.pdf"]⟩
          "out.jsonl").toOption.map (·.1.length) := by
  exact ⟨by decide, by decide⟩

/-! ## C3 — configuration validation at load time -/

/-- C3 (amended): `Settings.load` fails whenever
`chunk_overlap ≥ chunk_size` (and on the scenario values 500/500 it fails
with the cross-field validation error), before any settings object — and
hence any ingestion — can exist; a configuration whose fields lie within
the declared pydantic ranges (`200 ≤ chunk_size ≤ 4000`,
`0 ≤ chunk_overlap ≤ 2000`) and with `chunk_overlap < chunk_size` loads
without error. -/
theorem settings_load_chunk_validation :
    (Settings.load ⟨500, 500⟩ = .error .chunkOverlapNotLessThanSize) ∧
    (∀ env : SettingsInput, env.chunk_size ≤ env.chunk_overlap →
      ∃ e, Settings.load env = .error e) ∧
    ∀ env : SettingsInput, 200 ≤ env.chunk_size → env.chunk_size ≤ 4000 →
      0 ≤ env.chunk_overlap → env.chunk_overlap ≤ 2000 →
      env.chunk_overlap < env.chunk_size →
      Settings.load env = .ok ⟨env.chunk_size, env.chunk_overlap⟩ := by
  refine ⟨rfl, ?_, ?_⟩
  · intro env hle
    unfold Settings.load
    split_ifs with hA hB hC hD
    · exact ⟨_, rfl⟩
    · exact ⟨_, rfl⟩
    · exact ⟨_, rfl⟩
    · exact ⟨_, rfl⟩
    · unfold Settings.validate_chunking
      rw [if_pos (by simpa using hle)]
      exact ⟨_, rfl⟩
  · intro env h1 h2 h3 h4 h5
    unfold Settings.load
    rw [if_neg (by omega), if_neg (by omega), if_neg (by omega), if_neg (by omega)]
    unfold Settings.validate_chunking
    rw [if_neg (by simp; omega)]

/-- C3 witness: the theorem's conjuncts applied at concrete
configurations (the 500/500 scenario and an in-range valid one). -/
theorem settings_load_chunk_validation_witness :
    (∃ e, Settings.load ⟨1000, 1500⟩ = .error e) ∧
    Settings.load ⟨1000, 200⟩ = .ok ⟨1000, 200⟩ :=
  ⟨settings_load_chunk_validation.2.1 ⟨1000, 1500⟩ (by decide),
   settings_load_chunk_validation.2.2 ⟨1000, 200⟩ (by decide) (by decide)
     (by decide) (by decide) (by decide)⟩

/-- C3 counterexample: a configuration with `chunk_overlap < chunk_size`
(200 < 4500) that `Settings.load` nevertheless rejects, because
`chunk_size` violates its pydantic field bound `le=4000` — refuting the
claim's unconditional "a configuration with chunk_overlap < chunk_size
loads without error". -/
theorem settings_load_errors_despite_overlap_lt_size :
    (200 : Int) < 4500 ∧
    Settings.load ⟨4500, 200⟩ = .error (.fieldOutOfRange "chunk_size") := by
  constructor
  · decide
  · rfl

/-! ## C2 — idempotent re-ingestion -/

/-- C2: two ingestion runs over an unchanged directory — same files (in
any enumeration order the file system presents) and same page contents —
with the same splitter parameters persist identical chunk_id sequences
(hence identical chunk_id sets); in particular running
`ingest_directory_to_jsonl` twice on the unchanged directory yields
identical persisted chunk_id sets. -/
theorem ingest_unchanged_directory_same_chunk_ids
    (split_text : String → List String) (load_pdf_pages : String → List Page)
    (names₁ names₂ : List String) (output_path : String)
    (hperm : names₁.Perm names₂) :
    runChunkIds (ingest_directory_to_jsonl split_text load_pdf_pages ⟨some names₁⟩
        output_path)
      = runChunkIds (ingest_directory_to_jsonl split_text load_pdf_pages ⟨some names₂⟩
          output_path) := by
  have hsort : List.insertionSort (· ≤ ·) (names₁.filter isPdfName)
      = List.insertionSort (· ≤ ·) (names₂.filter isPdfName) :=
    List.eq_of_perm_of_sorted
      (((List.perm_insertionSort _ _).trans (hperm.filter _)).trans
        (List.perm_insertionSort _ _).symm)
      (List.sorted_insertionSort _ _) (List.sorted_insertionSort _ _)
  simp only [ingest_directory_to_jsonl, list_pdfs, hsort]

/-- C2 witness: the theorem applied to a concrete directory listed twice
in different enumeration orders. -/
theorem ingest_unchanged_directory_same_chunk_ids_witness :
    runChunkIds (ingest_directory_to_jsonl demoSplit demoLoader
        ⟨some ["b.pdf", "a.pdf"]⟩ "out.jsonl")
      = runChunkIds (ingest_directory_to_jsonl demoSplit demoLoader
          ⟨some ["a.pdf", "b.pdf"]⟩ "out.jsonl") :=
  ingest_unchanged_directory_same_chunk_ids demoSplit demoLoader _ _ "out.jsonl"
    (by decide)

/-! ## C4 / C5 — the vector-store upsert loop -/

theorem groupsOf_sum_length (p : Nat) :
    ∀ l : List α, ((groupsOf p l).map List.length).sum = l.length
  | [] => by rw [groupsOf_nil]; rfl
  | x :: xs => by
      rw [groupsOf_cons]
      have ih := groupsOf_sum_length p ((x :: xs).drop (p + 1))
      simp only [List.map_cons, List.sum_cons, ih, List.length_take, List.length_drop]
      omega
termination_by l => l.length
decreasing_by simp [List.length_drop]; omega

theorem upsertBatches_mismatch {V : Type} (embed : List String → List V) :
    ∀ (bl : List (List DocumentChunk)) (store : List (StoreEntry V)) (total k : Nat),
      k < bl.length →
      (∀ j, j < k →
        (embed ((bl.getD j []).map (·.content))).length = (bl.getD j []).length) →
      (embed ((bl.getD k []).map (·.content))).length ≠ (bl.getD k []).length →
      upsertBatches embed store total bl
        = .error (.embeddingMismatch, (bl.take k).foldl (commitBatch embed) store)
  | [], _, _, k, hk, _, _ => absurd hk (by simp)
  | b :: rest, store, total, 0, _, _, hbad => by
      simp only [upsertBatches]
      rw [if_pos (by simpa using hbad)]
      simp
  | b :: rest, store, total, k + 1, hk, hgood, hbad => by
      simp only [upsertBatches]
      rw [if_neg (by simpa using hgood 0 (Nat.succ_pos k))]
      have ih := upsertBatches_mismatch embed rest
        (collectionUpsert store (batchEntries b (embed (b.map (·.content)))))
        (total + b.length) k (by simpa using hk)
        (fun j hj => by simpa using hgood (j + 1) (by omega))
        (by simpa using hbad)
      simpa [commitBatch] using ih

theorem upsertBatches_ok {V : Type} (embed : List String → List V)
    (hemb : ∀ ts : List String, (embed ts).length = ts.length) :
    ∀ (bl : List (List DocumentChunk)) (store : List (StoreEntry V)) (total : Nat),
      ∃ st, upsertBatches embed store total bl
        = .ok (st, total + (bl.map List.length).sum)
  | [], store, total => ⟨store, by simp [upsertBatches]⟩
  | b :: rest, store, total => by
      simp only [upsertBatches]
      rw [if_neg (by simp [hemb])]
      obtain ⟨st, hst⟩ := upsertBatches_ok embed hemb rest
        (collectionUpsert store (batchEntries b (embed (b.map (·.content)))))
        (total + b.length)
      refine ⟨st, ?_⟩
      rw [hst]
      have : total + b.length + (rest.map List.length).sum
          = total + ((b :: rest).map List.length).sum := by
        simp only [List.map_cons, List.sum_cons]
        omega
      rw [this]

/-- C4: in `upsert_chunks`, whenever the embedding adapter returns a
vector list whose length differs from the batch size at some batch `k`
(the earlier batches embedding correctly), the embedding-mismatch error
is raised and the store at the raise holds exactly the batches committed
before the failing one: batch `k` contributes nothing, batches `0..k-1`
stay committed (no rollback). -/
theorem upsert_chunks_mismatch_keeps_committed {V : Type}
    (embed : List String → List V) (store : List (StoreEntry V))
    (chunks : List DocumentChunk) (batch_size k : Nat)
    (hbs : 0 < batch_size)
    (hk : k < (chunkBatches batch_size chunks).length)
    (hgood : ∀ j, j < k →
      (embed (((chunkBatches batch_size chunks).getD j []).map (·.content))).length
        = ((chunkBatches batch_size chunks).getD j []).length)
    (hbad :
      (embed (((chunkBatches batch_size chunks).getD k []).map (·.content))).length
        ≠ ((chunkBatches batch_size chunks).getD k []).length) :
    upsert_chunks embed store chunks batch_size
      = .error (.embeddingMismatch,
          ((chunkBatches batch_size chunks).take k).foldl (commitBatch embed) store) := by
  have hvalid : (chunks.filter chunkTextTruthy).isEmpty = false := by
    rcases h : (chunks.filter chunkTextTruthy).isEmpty with _ | _
    · rfl
    · exfalso
      rw [List.isEmpty_iff] at h
      have : chunkBatches batch_size chunks = [] := by
        simp [chunkBatches, validChunks, h, groupsOf_nil]
      rw [this] at hk
      simp at hk
  unfold upsert_chunks
  rw [if_neg (by simp [hvalid]), if_neg (by omega)]
  exact upsertBatches_mismatch embed _ store 0 k hk hgood hbad

/-- C4 witness: a two-chunk run with batch size 1 whose embedder embeds
the first batch correctly and returns a wrong-length vector list for the
second: the call fails with the mismatch error, with the first batch's
store state carried in the error. -/
theorem upsert_chunks_mismatch_keeps_committed_witness :
    ∃ st, upsert_chunks
        (fun ts => if ts = ["a"] then [(0 : Nat)] else [])
        ([] : List (StoreEntry Nat))
        [⟨"a", ⟨[], "a.pdf", "a.pdf", some 1, 0, "id0"⟩⟩,
         ⟨"b", ⟨[], "a.pdf", "a.pdf", some 1, 1, "id1"⟩⟩] 1
      = .error (.embeddingMismatch, st) :=
  ⟨_, upsert_chunks_mismatch_keeps_committed _ _ _ 1 1 (by decide) (by decide)
      (by decide) (by decide)⟩

/-- C5: `upsert_chunks` silently filters out chunks whose content is
empty or whitespace-only — with a well-behaved adapter (vector count =
text count) the call succeeds and the returned count is exactly the
number of surviving (non-blank) chunks; on the empty chunk list it
returns 0, and its result then does not depend on the embedding adapter
at all (the adapter is never consulted). -/
theorem upsert_chunks_filters_and_counts :
    (∀ {V : Type} (embed : List String → List V) (store : List (StoreEntry V))
       (chunks : List DocumentChunk) (batch_size : Nat),
       0 < batch_size → (∀ ts, (embed ts).length = ts.length) →
       ∃ st, upsert_chunks embed store chunks batch_size
          = .ok (st, (validChunks chunks).length)) ∧
    (∀ {V : Type} (embed : List String → List V) (store : List (StoreEntry V))
       (batch_size : Nat),
       upsert_chunks embed store [] batch_size = .ok (store, 0)) ∧
    ∀ {V : Type} (embed₁ embed₂ : List String → List V)
      (store : List (StoreEntry V)) (batch_size : Nat),
      upsert_chunks embed₁ store [] batch_size
        = upsert_chunks embed₂ store [] batch_size := by
  refine ⟨?_, fun _ _ _ => rfl, fun _ _ _ _ => rfl⟩
  intro V embed store chunks batch_size hbs hemb
  unfold upsert_chunks
  rcases hval : (chunks.filter chunkTextTruthy).isEmpty with _ | _
  · rw [if_neg (by simp [hval]), if_neg (by omega)]
    obtain ⟨st, hst⟩ := upsertBatches_ok embed hemb
      (groupsOf (batch_size - 1) (chunks.filter chunkTextTruthy)) store 0
    refine ⟨st, ?_⟩
    rw [hst, groupsOf_sum_length]
    simp [validChunks]
  · rw [if_pos (by simp [hval])]
    rw [List.isEmpty_iff] at hval
    refine ⟨store, ?_⟩
    simp [validChunks, hval]

/-- C5 witness: the theorem's conjuncts applied at a concrete store:
a list of one blank and one real chunk upserts exactly 1 chunk, and the
empty list returns 0. -/
theorem upsert_chunks_filters_and_counts_witness :
    (∃ st, upsert_chunks (fun ts => ts.map fun _ => (0 : Nat)) []
        [⟨" ", ⟨[], "a.pdf", "a.pdf", some 1, 0, "id0"⟩⟩,
         ⟨"x", ⟨[], "a.pdf", "a.pdf", some 1, 1, "id1"⟩⟩] 64 = .ok (st, 1)) ∧
    upsert_chunks (fun ts => ts.map fun _ => (0 : Nat))
      ([] : List (StoreEntry Nat)) [] 64 = .ok ([], 0) :=
  ⟨upsert_chunks_filters_and_counts.1 _ _ _ 64 (by decide)
      (fun ts => by simp),
   upsert_chunks_filters_and_counts.2.1 _ _ 64⟩

/-! ## C9 — chunk_index contiguity within (source_file, page_number) groups -/

/-- The membership filter of one `(source_file, page_number)` group. -/
def groupPred (source_file : String) (page_number : Option Int)
    (c : DocumentChunk) : Bool :=
  c.metadata.source_file == source_file && c.metadata.page_number == page_number

theorem groupChunkIndices_eq (chunks : List DocumentChunk) (f : String)
    (pn : Option Int) :
    groupChunkIndices chunks f pn
      = (chunks.filter (groupPred f pn)).map (·.metadata.chunk_index) := rfl

theorem mem_pageChunks_meta (split_text : String → List String) (pdf_path : String)
    (page : Page) (c : DocumentChunk) (hc : c ∈ pageChunks split_text pdf_path page) :
    c.metadata.source_file = pathName pdf_path ∧
    c.metadata.page_number = page.metadata.page_number := by
  simp only [pageChunks, List.mem_map] at hc
  obtain ⟨it, _, rfl⟩ := hc
  exact ⟨rfl, rfl⟩

theorem filter_pageChunks (split_text : String → List String) (pdf_path : String)
    (page : Page) (f : String) (pn : Option Int) :
    (pageChunks split_text pdf_path page).filter (groupPred f pn)
      = if pathName pdf_path = f ∧ page.metadata.page_number = pn then
          pageChunks split_text pdf_path page
        else [] := by
  by_cases h : pathName pdf_path = f ∧ page.metadata.page_number = pn
  · rw [if_pos h]
    rw [List.filter_eq_self]
    intro c hc
    obtain ⟨h1, h2⟩ := mem_pageChunks_meta split_text pdf_path page c hc
    simp [groupPred, h1, h2, h.1, h.2]
  · rw [if_neg h]
    rw [List.filter_eq_nil_iff]
    intro c hc
    obtain ⟨h1, h2⟩ := mem_pageChunks_meta split_text pdf_path page c hc
    simp only [groupPred, h1, h2, Bool.and_eq_true, beq_iff_eq]
    exact fun hcontra => h ⟨hcontra.1, hcontra.2⟩

theorem pageChunks_map_index (split_text : String → List String) (pdf_path : String)
    (page : Page) :
    (pageChunks split_text pdf_path page).map (·.metadata.chunk_index)
      = List.range (split_text page.page_content).length := by
  unfold pageChunks
  rw [List.map_map]
  exact List.enum_map_fst _

theorem filter_chunk_pages_nil_of_ne_source (split_text : String → List String)
    (pages : List Page) (pdf_path : String) (f : String) (pn : Option Int)
    (hf : pathName pdf_path ≠ f) :
    (chunk_pages split_text pages pdf_path).filter (groupPred f pn) = [] := by
  rw [List.filter_eq_nil_iff]
  intro c hc
  rw [chunk_pages_eq_flatMap, List.mem_flatMap] at hc
  obtain ⟨page, _, hcp⟩ := hc
  obtain ⟨h1, h2⟩ := mem_pageChunks_meta split_text pdf_path page c hcp
  simp only [groupPred, h1, h2, Bool.and_eq_true, beq_iff_eq]
  exact fun hcontra => hf hcontra.1

theorem filter_chunk_pages_nil_of_no_page (split_text : String → List String)
    (pages : List Page) (pdf_path : String) (f : String) (pn : Option Int)
    (hpn : ∀ q ∈ pages, q.metadata.page_number ≠ pn) :
    (chunk_pages split_text pages pdf_path).filter (groupPred f pn) = [] := by
  rw [List.filter_eq_nil_iff]
  intro c hc
  rw [chunk_pages_eq_flatMap, List.mem_flatMap] at hc
  obtain ⟨page, hpage, hcp⟩ := hc
  obtain ⟨h1, h2⟩ := mem_pageChunks_meta split_text pdf_path page c hcp
  simp only [groupPred, h1, h2, Bool.and_eq_true, beq_iff_eq]
  exact fun hcontra => hpn page hpage hcontra.2

theorem filter_chunk_pages_doc (split_text : String → List String)
    (pdf_path : String) (f : String) (pn : Option Int) :
    ∀ pages : List Page,
      (pages.map (·.metadata.page_number)).Pairwise (· ≠ ·) →
      (chunk_pages split_text pages pdf_path).filter (groupPred f pn) = [] ∨
      ∃ page, (chunk_pages split_text pages pdf_path).filter (groupPred f pn)
          = pageChunks split_text pdf_path page
  | [], _ => Or.inl rfl
  | p :: rest, hdist => by
      rw [List.pairwise_map, List.pairwise_cons] at hdist
      rw [chunk_pages_eq_flatMap, List.flatMap_cons, List.filter_append,
        ← chunk_pages_eq_flatMap]
      by_cases hp : pathName pdf_path = f ∧ p.metadata.page_number = pn
      · rw [filter_pageChunks, if_pos hp]
        rw [filter_chunk_pages_nil_of_no_page split_text rest pdf_path f pn
          (fun q hq => by rw [← hp.2]; exact (hdist.1 q hq).symm)]
        exact Or.inr ⟨p, by rw [List.append_nil]⟩
      · rw [filter_pageChunks, if_neg hp, List.nil_append]
        have hrest := filter_chunk_pages_doc split_text pdf_path f pn rest
          (List.pairwise_map.mpr hdist.2)
        rcases hrest with h | ⟨page, hpage⟩
        · exact Or.inl h
        · exact Or.inr ⟨page, hpage⟩

theorem filter_run (split_text : String → List String)
    (load_pdf_pages : String → List Page) (f : String) (pn : Option Int) :
    ∀ pdfs : List String,
      pdfs.Pairwise (fun p q => pathName p ≠ pathName q) →
      (∀ p ∈ pdfs,
        ((load_pdf_pages p).map (·.metadata.page_number)).Pairwise (· ≠ ·)) →
      ((pdfs.flatMap fun p =>
          chunk_pages split_text (load_pdf_pages p) p).filter (groupPred f pn)) = [] ∨
      ∃ path page,
        ((pdfs.flatMap fun p =>
            chunk_pages split_text (load_pdf_pages p) p).filter (groupPred f pn))
          = pageChunks split_text path page
  | [], _, _ => Or.inl rfl
  | p :: rest, hnames, hpages => by
      rw [List.pairwise_cons] at hnames
      rw [List.flatMap_cons, List.filter_append]
      by_cases hf : pathName p = f
      · have hrest : ((rest.flatMap fun q =>
            chunk_pages split_text (load_pdf_pages q) q).filter (groupPred f pn)) = [] := by
          rw [List.filter_eq_nil_iff]
          intro c hc
          rw [List.mem_flatMap] at hc
          obtain ⟨q, hq, hcq⟩ := hc
          have := filter_chunk_pages_nil_of_ne_source split_text (load_pdf_pages q) q
            f pn (by rw [← hf]; exact (hnames.1 q hq).symm)
          rw [List.filter_eq_nil_iff] at this
          exact this c hcq
        rw [hrest, List.append_nil]
        rcases filter_chunk_pages_doc split_text p f pn (load_pdf_pages p)
            (hpages p (List.mem_cons_self p rest)) with h | ⟨page, hpage⟩
        · exact Or.inl h
        · exact Or.inr ⟨p, page, hpage⟩
      · rw [filter_chunk_pages_nil_of_ne_source split_text (load_pdf_pages p) p f pn hf,
          List.nil_append]
        exact filter_run split_text load_pdf_pages f pn rest hnames.2
          (fun q hq => hpages q (List.mem_cons_of_mem p hq))

/-- C9 (amended): provided the loader reports pairwise-distinct
`page_number` values for the pages of each document and the documents of
a run have pairwise-distinct basenames, every `(source_file, page_number)`
group of the accumulated chunk list of the run carries `chunk_index`
values that are exactly `0, 1, 2, ...` in split order (the group list
equals `List.range` of its length).  Without that proviso a repeated
`page_number` restarts the numbering inside one group (see the
counterexample). -/
theorem chunk_index_contiguous_with_distinct_keys
    (split_text : String → List String) (load_pdf_pages : String → List Page)
    (pdfs : List String)
    (hnames : pdfs.Pairwise fun p q => pathName p ≠ pathName q)
    (hpages : ∀ p ∈ pdfs,
      ((load_pdf_pages p).map (·.metadata.page_number)).Pairwise (· ≠ ·))
    (f : String) (pn : Option Int) :
    groupChunkIndices
        (pdfs.flatMap fun p => chunk_pages split_text (load_pdf_pages p) p) f pn
      = List.range
          (groupChunkIndices
            (pdfs.flatMap fun p => chunk_pages split_text (load_pdf_pages p) p)
            f pn).length := by
  rw [groupChunkIndices_eq]
  rcases filter_run split_text load_pdf_pages f pn pdfs hnames hpages with h | ⟨path, page, h⟩
  · rw [h]; rfl
  · rw [h, pageChunks_map_index, List.length_range]

/-- C9 witness: a two-document run with distinct basenames and distinct
page numbers per document, instantiated at the group of page 1 of
`a.pdf`. -/
theorem chunk_index_contiguous_with_distinct_keys_witness :
    groupChunkIndices
        (["a.pdf", "b.pdf"].flatMap fun p =>
          chunk_pages demoSplitTwo
            ((fun _ => [⟨"t1", ⟨some 1, []⟩⟩, ⟨"t2", ⟨some 2, []⟩⟩] :
                String → List Page) p) p)
        "a.pdf" (some 1)
      = List.range
          (groupChunkIndices
            (["a.pdf", "b.pdf"].flatMap fun p =>
              chunk_pages demoSplitTwo
                ((fun _ => [⟨"t1", ⟨some 1, []⟩⟩, ⟨"t2", ⟨some 2, []⟩⟩] :
                    String → List Page) p) p)
            "a.pdf" (some 1)).length :=
  chunk_index_contiguous_with_distinct_keys demoSplitTwo _ ["a.pdf", "b.pdf"]
    (by decide) (by decide) "a.pdf" (some 1)

/-- C9 counterexample: a document whose two pages both carry
`page_number = 1` (possible since the loader's metadata is arbitrary; the
actual PyPDFLoader metadata never sets `page_number` at all, collapsing
every page into one group).  The `(a.pdf, 1)` group's chunk_index values
are `[0, 1, 0, 1]`, not the contiguous `[0, 1, 2, 3]`: the claim fails as
stated for every document. -/
theorem chunk_index_not_contiguous_on_duplicate_page_number :
    groupChunkIndices
        (chunk_pages demoSplitTwo [⟨"t1", ⟨some 1, []⟩⟩, ⟨"t2", ⟨some 1, []⟩⟩]
          "a.pdf") "a.pdf" (some 1)
      ≠ List.range
          (groupChunkIndices
            (chunk_pages demoSplitTwo [⟨"t1", ⟨some 1, []⟩⟩, ⟨"t2", ⟨some 1, []⟩⟩]
              "a.pdf") "a.pdf" (some 1)).length := by
  decide

/-! ## C1 — chunk identity: canonical encoding and sensitivity

The canonical JSON serialization is injective in every coordinate.  The
proof decodes: a one-character decoder inverts `jsonEscChar`, a decimal
parser inverts `natDecimal`, and list-append cancellation isolates each
payload field. -/

/-- Value of a lower-case hex digit character. -/
def hexVal (c : Char) : Nat :=
  if c = '0' then 0 else if c = '1' then 1 else if c = '2' then 2
  else if c = '3' then 3 else if c = '4' then 4 else if c = '5' then 5
  else if c = '6' then 6 else if c = '7' then 7 else if c = '8' then 8
  else if c = '9' then 9 else if c = 'a' then 10 else if c = 'b' then 11
  else if c = 'c' then 12 else if c = 'd' then 13 else if c = 'e' then 14
  else if c = 'f' then 15 else 16

/-- Value of a decimal digit character (10 for non-digits). -/
def digitVal (c : Char) : Nat :=
  if c = '0' then 0 else if c = '1' then 1 else if c = '2' then 2
  else if c = '3' then 3 else if c = '4' then 4 else if c = '5' then 5
  else if c = '6' then 6 else if c = '7' then 7 else if c = '8' then 8
  else if c = '9' then 9 else 10

theorem hexVal_hexChar (k : Nat) (h : k < 16) : hexVal (hexChar k) = k := by
  interval_cases k <;> rfl

theorem digitVal_digitChar (k : Nat) (h : k < 10) : digitVal (digitChar k) = k := by
  interval_cases k <;> rfl

/-- One-step decoder for `jsonEscChar`: reads one escaped character off
the front of an escaped stream and returns its code point and the rest. -/
def decodeHeadN : List Char → Option (Nat × List Char)
  | [] => none
  | c :: rest =>
      if c = '\\' then
        match rest with
        | [] => none
        | k :: r2 =>
            if k = '"' then some ('"'.toNat, r2)
            else if k = '\\' then some ('\\'.toNat, r2)
            else if k = 'n' then some ('\n'.toNat, r2)
            else if k = 't' then some ('\t'.toNat, r2)
            else if k = 'r' then some ('\r'.toNat, r2)
            else if k = 'b' then some (8, r2)
            else if k = 'f' then some (12, r2)
            else if k = 'u' then
              match r2 with
              | a :: b :: c2 :: d :: r3 =>
                  some (hexVal a * 4096 + hexVal b * 256 + hexVal c2 * 16
                    + hexVal d, r3)
              | _ => none
            else none
      else some (c.toNat, rest)

theorem decodeHeadN_escChar (c : Char) (r : List Char) :
    decodeHeadN (jsonEscChar c ++ r) = some (c.toNat, r) := by
  by_cases h1 : c = '"'
  · subst h1; rfl
  by_cases h2 : c = '\\'
  · subst h2; rfl
  by_cases h3 : c = '\n'
  · subst h3; rfl
  by_cases h4 : c = '\t'
  · subst h4; rfl
  by_cases h5 : c = '\r'
  · subst h5; rfl
  by_cases h6 : c.toNat = 8
  · simp only [jsonEscChar, if_neg h1, if_neg h2, if_neg h3, if_neg h4, if_neg h5,
      if_pos h6]
    rw [h6]
    rfl
  by_cases h7 : c.toNat = 12
  · simp only [jsonEscChar, if_neg h1, if_neg h2, if_neg h3, if_neg h4, if_neg h5,
      if_neg h6, if_pos h7]
    rw [h7]
    rfl
  by_cases h8 : c.toNat < 0x20
  · simp only [jsonEscChar, if_neg h1, if_neg h2, if_neg h3, if_neg h4, if_neg h5,
      if_neg h6, if_neg h7, if_pos h8]
    show some (hexVal '0' * 4096 + hexVal '0' * 256 + hexVal (hexChar (c.toNat / 16)) * 16
      + hexVal (hexChar (c.toNat % 16)), r) = some (c.toNat, r)
    rw [hexVal_hexChar (c.toNat / 16) (by omega), hexVal_hexChar (c.toNat % 16) (by omega),
      show hexVal '0' = 0 from rfl]
    exact congrArg (fun v => some (v, r)) (by omega)
  · simp only [jsonEscChar, if_neg h1, if_neg h2, if_neg h3, if_neg h4, if_neg h5,
      if_neg h6, if_neg h7, if_neg h8, List.cons_append, List.nil_append]
    simp only [decodeHeadN]
    rw [if_neg h2]

theorem charToNat_inj (c d : Char) (h : c.toNat = d.toNat) : c = d := by
  rcases c with ⟨⟨c, hc⟩, h2⟩
  rcases d with ⟨⟨d, hd⟩, h3⟩
  simp [Char.toNat, UInt32.toNat] at h
  subst h
  rfl

theorem jsonEscChar_ne_nil (c : Char) : jsonEscChar c ≠ [] := by
  unfold jsonEscChar
  split_ifs <;> simp

theorem jsonEsc_injective : ∀ s t : List Char, jsonEsc s = jsonEsc t → s = t
  | [], [], _ => rfl
  | [], c :: t, h => by
      exfalso
      simp only [jsonEsc, List.flatMap_nil, List.flatMap_cons] at h
      rcases List.append_eq_nil.mp h.symm with ⟨h1, _⟩
      exact jsonEscChar_ne_nil c h1
  | c :: s, [], h => by
      exfalso
      simp only [jsonEsc, List.flatMap_nil, List.flatMap_cons] at h
      rcases List.append_eq_nil.mp h with ⟨h1, _⟩
      exact jsonEscChar_ne_nil c h1
  | c :: s, c' :: t, h => by
      simp only [jsonEsc, List.flatMap_cons] at h
      have hd := congrArg decodeHeadN h
      rw [decodeHeadN_escChar, decodeHeadN_escChar] at hd
      simp only [Option.some.injEq, Prod.mk.injEq] at hd
      have hc := charToNat_inj _ _ hd.1
      subst hc
      rw [jsonEsc_injective s t hd.2]

/-- The decimal parser inverting `natDecimal`. -/
def parseDec (l : List Char) : Nat := l.foldl (fun a c => a * 10 + digitVal c) 0

theorem parseDec_natDecimal : ∀ n : Nat, parseDec (natDecimal n) = n
  | n => by
      rw [natDecimal]
      split_ifs with h
      · show 0 * 10 + digitVal (digitChar n) = n
        rw [digitVal_digitChar n h]
        omega
      · have ih := parseDec_natDecimal (n / 10)
        show List.foldl (fun a c => a * 10 + digitVal c) 0
          (natDecimal (n / 10) ++ [digitChar (n % 10)]) = n
        rw [List.foldl_append]
        show parseDec (natDecimal (n / 10)) * 10 + digitVal (digitChar (n % 10)) = n
        rw [ih, digitVal_digitChar (n % 10) (by omega)]
        omega
termination_by n => n
decreasing_by omega

theorem natDecimal_injective (m n : Nat) (h : natDecimal m = natDecimal n) :
    m = n := by
  rw [← parseDec_natDecimal m, ← parseDec_natDecimal n, h]

theorem natDecimal_digits : ∀ (n : Nat) (c : Char), c ∈ natDecimal n → digitVal c < 10
  | n, c => by
      rw [natDecimal]
      split_ifs with h
      · intro hc
        simp only [List.mem_singleton] at hc
        subst hc
        rw [digitVal_digitChar n h]
        omega
      · intro hc
        rcases List.mem_append.mp hc with h1 | h2
        · exact natDecimal_digits (n / 10) c h1
        · simp only [List.mem_singleton] at h2
          subst h2
          rw [digitVal_digitChar (n % 10) (by omega)]
          omega
termination_by n => n
decreasing_by omega

theorem intDecimal_injective (i j : Int) (h : intDecimal i = intDecimal j) :
    i = j := by
  unfold intDecimal at h
  split_ifs at h with hi hj hj
  · injection h with _ h2
    have := natDecimal_injective _ _ h2
    omega
  · exfalso
    have hm : '-' ∈ natDecimal j.toNat := h ▸ List.mem_cons_self _ _
    have := natDecimal_digits _ _ hm
    simp [digitVal] at this
  · exfalso
    have hm : '-' ∈ natDecimal i.toNat := h.symm ▸ List.mem_cons_self _ _
    have := natDecimal_digits _ _ hm
    simp [digitVal] at this
  · have := natDecimal_injective _ _ h
    omega

/-- C1 (amended): `make_chunk_id` is pure and returns the SHA-256 hex
digest of the canonical sorted-key JSON encoding of
`(source_path, page_number, chunk_index, content)`; identical inputs
yield the identical identifier, and changing any single input changes
the canonical JSON payload that is hashed — hence the identifier,
except in the event of a SHA-256 collision on the two payloads (which
exists in the abstract by pigeonhole, see the counterexample, but none
is computable in practice). -/
theorem make_chunk_id_canonical_and_sensitive :
    (∀ (sp : String) (pn : Int) (ci : Nat) (c : String),
      make_chunk_id sp pn ci c
        = sha256Hex (utf8Encode (chunkIdPayload sp pn ci c))) ∧
    (∀ (sp sp' : String) (pn pn' : Int) (ci ci' : Nat) (c c' : String),
      sp = sp' → pn = pn' → ci = ci' → c = c' →
      make_chunk_id sp pn ci c = make_chunk_id sp' pn' ci' c') ∧
    (∀ (sp sp' : String) (pn : Int) (ci : Nat) (c : String), sp ≠ sp' →
      chunkIdPayload sp pn ci c ≠ chunkIdPayload sp' pn ci c) ∧
    (∀ (sp : String) (pn pn' : Int) (ci : Nat) (c : String), pn ≠ pn' →
      chunkIdPayload sp pn ci c ≠ chunkIdPayload sp pn' ci c) ∧
    (∀ (sp : String) (pn : Int) (ci ci' : Nat) (c : String), ci ≠ ci' →
      chunkIdPayload sp pn ci c ≠ chunkIdPayload sp pn ci' c) ∧
    ∀ (sp : String) (pn : Int) (ci : Nat) (c c' : String), c ≠ c' →
      chunkIdPayload sp pn ci c ≠ chunkIdPayload sp pn ci c' := by
  refine ⟨fun _ _ _ _ => rfl,
    fun sp sp' pn pn' ci ci' c c' h1 h2 h3 h4 => by rw [h1, h2, h3, h4],
    ?_, ?_, ?_, ?_⟩
  · intro sp sp' pn ci c hne h
    apply hne
    have hc : chunkIdPayloadChars sp pn ci c = chunkIdPayloadChars sp' pn ci c :=
      congrArg String.data h
    simp only [chunkIdPayloadChars, List.append_assoc] at hc
    have s1 := List.append_cancel_left hc
    have s2 := List.append_cancel_left s1
    have s3 := List.append_cancel_left s2
    have s4 := List.append_cancel_left s3
    have s5 := List.append_cancel_left s4
    have s6 := List.append_cancel_left s5
    have s7 := List.append_cancel_left s6
    have s8 := List.append_cancel_right s7
    exact String.ext (jsonEsc_injective _ _ s8)
  · intro sp pn pn' ci c hne h
    apply hne
    have hc : chunkIdPayloadChars sp pn ci c = chunkIdPayloadChars sp pn' ci c :=
      congrArg String.data h
    simp only [chunkIdPayloadChars, List.append_assoc] at hc
    have s1 := List.append_cancel_left hc
    have s2 := List.append_cancel_left s1
    have s3 := List.append_cancel_left s2
    have s4 := List.append_cancel_left s3
    have s5 := List.append_cancel_left s4
    have s6 := List.append_cancel_right s5
    exact intDecimal_injective _ _ s6
  · intro sp pn ci ci' c hne h
    apply hne
    have hc : chunkIdPayloadChars sp pn ci c = chunkIdPayloadChars sp pn ci' c :=
      congrArg String.data h
    simp only [chunkIdPayloadChars, List.append_assoc] at hc
    have s1 := List.append_cancel_left hc
    have s2 := List.append_cancel_right s1
    exact natDecimal_injective _ _ s2
  · intro sp pn ci c c' hne h
    apply hne
    have hc : chunkIdPayloadChars sp pn ci c = chunkIdPayloadChars sp pn ci c' :=
      congrArg String.data h
    simp only [chunkIdPayloadChars, List.append_assoc] at hc
    have s1 := List.append_cancel_left hc
    have s2 := List.append_cancel_left s1
    have s3 := List.append_cancel_left s2
    have s4 := List.append_cancel_right s3
    exact String.ext (jsonEsc_injective _ _ s4)

/-- C1 witness: the determinism and each single-input sensitivity
conjunct instantiated at concrete inputs. -/
theorem make_chunk_id_canonical_and_sensitive_witness :
    make_chunk_id "a.pdf" 1 0 "x" = make_chunk_id "a.pdf" 1 0 "x" ∧
    chunkIdPayload "a.pdf" 1 0 "x" ≠ chunkIdPayload "b.pdf" 1 0 "x" ∧
    chunkIdPayload "a.pdf" 1 0 "x" ≠ chunkIdPayload "a.pdf" (-1) 0 "x" ∧
    chunkIdPayload "a.pdf" 1 0 "x" ≠ chunkIdPayload "a.pdf" 1 7 "x" ∧
    chunkIdPayload "a.pdf" 1 0 "x" ≠ chunkIdPayload "a.pdf" 1 0 "y" :=
  ⟨make_chunk_id_canonical_and_sensitive.2.1 "a.pdf" "a.pdf" 1 1 0 0 "x" "x"
      rfl rfl rfl rfl,
   make_chunk_id_canonical_and_sensitive.2.2.1 "a.pdf" "b.pdf" 1 0 "x" (by decide),
   make_chunk_id_canonical_and_sensitive.2.2.2.1 "a.pdf" 1 (-1) 0 "x" (by decide),
   make_chunk_id_canonical_and_sensitive.2.2.2.2.1 "a.pdf" 1 0 7 "x" (by decide),
   make_chunk_id_canonical_and_sensitive.2.2.2.2.2 "a.pdf" 1 0 "x" "y" (by decide)⟩

theorem sha256Bytes_length (msg : List Nat) : (sha256Bytes msg).length = 32 := rfl

theorem sha256Bytes_lt (msg : List Nat) :
    ∀ x ∈ sha256Bytes msg, x < 256 := by
  intro x hx
  simp only [sha256Bytes, sha256StateBytes, beWordBytes, List.mem_append,
    List.mem_cons, List.not_mem_nil, or_false, or_assoc] at hx
  rcases hx with rfl | rfl | rfl | rfl | rfl | rfl | rfl | rfl |
    rfl | rfl | rfl | rfl | rfl | rfl | rfl | rfl |
    rfl | rfl | rfl | rfl | rfl | rfl | rfl | rfl |
    rfl | rfl | rfl | rfl | rfl | rfl | rfl | rfl <;>
    exact Nat.mod_lt _ (by norm_num)

/-- C1 counterexample: the claim's "changing any single input changes the
output identifier", read as stated, is false — SHA-256 maps the
infinitely many possible contents into finitely many 32-byte digests, so
by pigeonhole two distinct contents share one chunk id (no such pair is
computable, which is why the amended claim states sensitivity of the
hashed payload instead). -/
theorem make_chunk_id_collision_exists :
    ∃ c₁ c₂ : String, c₁ ≠ c₂ ∧
      make_chunk_id "a.pdf" 1 0 c₁ = make_chunk_id "a.pdf" 1 0 c₂ := by
  classical
  obtain ⟨m, n, hmn, heq⟩ :=
    Finite.exists_ne_map_eq_of_infinite
      (fun (k : Nat) (i : Fin 32) =>
        (⟨(sha256Bytes (utf8Encode
              (chunkIdPayload "a.pdf" 1 0 ⟨List.replicate k 'a'⟩))).getD i.val 0 % 256,
          Nat.mod_lt _ (by norm_num)⟩ : Fin 256))
  refine ⟨⟨List.replicate m 'a'⟩, ⟨List.replicate n 'a'⟩, ?_, ?_⟩
  · intro hF
    apply hmn
    have hdata : List.replicate m 'a' = List.replicate n 'a' := congrArg String.data hF
    have := congrArg List.length hdata
    simpa using this
  · have hbytes :
        sha256Bytes (utf8Encode (chunkIdPayload "a.pdf" 1 0 ⟨List.replicate m 'a'⟩))
          = sha256Bytes (utf8Encode (chunkIdPayload "a.pdf" 1 0 ⟨List.replicate n 'a'⟩)) := by
      apply List.ext_getElem (by rw [sha256Bytes_length, sha256Bytes_length])
      intro i h1 h2
      have hi : i < 32 := by rw [sha256Bytes_length] at h1; exact h1
      have hfin := congrArg Fin.val (congrFun heq ⟨i, hi⟩)
      simp only at hfin
      rw [List.getD_eq_getElem _ 0 h1, List.getD_eq_getElem _ 0 h2] at hfin
      rw [Nat.mod_eq_of_lt (sha256Bytes_lt _ _ (List.getElem_mem h1)),
        Nat.mod_eq_of_lt (sha256Bytes_lt _ _ (List.getElem_mem h2))] at hfin
      exact hfin
    exact congrArg bytesToHex hbytes

end TravelAgent
